import Mathlib

/-!
# Verification of `models/experimental.py` (yolov5_research)

A shallow embedding of the checkpoint-loading and auxiliary-layer module
`models/experimental.py`.  Python objects are modelled as Lean records,
tensors as lists of rationals (the operations involved — addition, scalar
multiplication, concatenation, max, floor — are exact, so `ℚ` is a faithful
carrier for the float arithmetic at the inputs considered), attribute
presence as `Option`, and raised exceptions as `Except` errors.  External
collaborators (`torch.load`, `attempt_download`, the member models' own
`forward`) enter as oracle parameters.  Methods that only touch untracked
internal state (`.to(device)`, `.float()`, `.fuse()`, `.eval()`) are
modelled as the identity on the tracked attributes.
-/

namespace Yolo

/-- Python exceptions observable in this module. -/
inductive PyErr
  | nameError (missing : String)
  | keyError
  | valueError
  | indexError
  | assertionError
  | moduleNotFound (missing : String)
  | otherError (msg : String)
deriving DecidableEq, Repr

/-! ## `check_class_names` (lines 18–32)

A class-name table is either a Python list of strings or a dict whose keys
may be ints or strings.  Dicts are modelled as association lists in
insertion order (keys of a real dict are unique).  -/

/-- A Python dict key as it occurs here: an int or a string. -/
inductive PyKey
  | intK (z : ℤ)
  | strK (s : String)
deriving DecidableEq, Repr

/-- The argument of `check_class_names`: a list of names or a dict. -/
inductive NamesArg
  | list (l : List String)
  | dict (d : List (PyKey × String))
deriving DecidableEq, Repr

/-- `dict(enumerate(names))` for a list input: keys `0..n-1`. -/
def enumNames (l : List String) : List (ℤ × String) :=
  l.enum.map (fun p => ((p.1 : ℤ), p.2))

/-- `isinstance(k, int)`. -/
def keyIsInt : PyKey → Bool
  | .intK _ => true
  | .strK _ => false

/-- One step of decimal parsing: accumulate a digit or fail. -/
def digitStep (n : ℕ) (c : Char) : Option ℕ :=
  if c.isDigit then some (n * 10 + (c.toNat - 48)) else none

/-- The value of a nonempty run of decimal digits; `none` otherwise. -/
def digitsToNat (cs : List Char) : Option ℕ :=
  match cs with
  | [] => none
  | c :: rest => (c :: rest).foldlM digitStep 0

/-- Python `int(s)` on a string: an optional leading minus sign followed
by one or more decimal digits; anything else raises `ValueError`. -/
def pyStrToInt (s : String) : Except PyErr ℤ :=
  match s.data with
  | '-' :: rest =>
    match digitsToNat rest with
    | some n => .ok (-(n : ℤ))
    | none => .error .valueError
  | cs =>
    match digitsToNat cs with
    | some n => .ok ((n : ℤ))
    | none => .error .valueError

/-- Python `int(k)`: ints pass through, decimal-literal strings parse,
anything else raises `ValueError`. -/
def pyIntOfKey : PyKey → Except PyErr ℤ
  | .intK z => .ok z
  | .strK s => pyStrToInt s

/-- The key of an int key (total; only applied when all keys are ints). -/
def keyToIntTotal : PyKey → ℤ
  | .intK z => z
  | .strK _ => 0

/-- Python dict assignment `d[k] = v`: an existing key keeps its position,
a new key is appended. -/
def dictAssign (d : List (ℤ × String)) (k : ℤ) (v : String) : List (ℤ × String) :=
  if d.any (fun p => p.1 == k) then d.map (fun p => if p.1 == k then (p.1, v) else p)
  else d ++ [(k, v)]

/-- The dict comprehension `{int(k): v for k, v in names.items()}`,
evaluated left to right; the first failing `int(k)` raises. -/
def convertKeys : List (ℤ × String) → List (PyKey × String) → Except PyErr (List (ℤ × String))
  | acc, [] => .ok acc
  | acc, p :: rest =>
    match pyIntOfKey p.1 with
    | .error e => .error e
    | .ok k => convertKeys (dictAssign acc k p.2) rest

/-- Python `s.startswith(pre)` over the characters of the strings. -/
def pyStartswith (s pre : String) : Bool :=
  s.data.take pre.data.length == pre.data

/-- `max(keys)`: `none` models the `ValueError` of `max()` on an empty
sequence. -/
def listMaxZ (l : List ℤ) : Option ℤ :=
  match l with
  | [] => none
  | a :: t => some (t.foldl max a)

/-- The maximum key of a dict, defaulting to `0` on the empty dict
(only used in theorem statements under a nonemptiness hypothesis). -/
def dictMax (d : List (ℤ × String)) : ℤ :=
  match d.map Prod.fst with
  | [] => 0
  | a :: t => t.foldl max a

/-- Lines 23–24: when not all keys are ints already, rebuild the dict
with every key passed through `int(k)`. -/
def convNames (d0 : List (PyKey × String)) : Except PyErr (List (ℤ × String)) :=
  if d0.all (fun p => keyIsInt p.1) then .ok (d0.map (fun p => (keyToIntTotal p.1, p.2)))
  else convertKeys [] d0

/-- `check_class_names` (lines 18–32).  A list becomes
`dict(enumerate(names))` and then flows through the dict branch.  The
imagenet branch (`names[0].startswith('n0')`) calls the unbound name
`yaml_load`, hence raises `NameError`; `names[0]` itself raises `KeyError`
when key `0` is absent. -/
def check_class_names (names : NamesArg) : Except PyErr (List (ℤ × String)) :=
  let d0 : List (PyKey × String) :=
    match names with
    | .list l => l.enum.map (fun p => (PyKey.intK (p.1 : ℤ), p.2))
    | .dict d => d
  match convNames d0 with
  | .error e => .error e
  | .ok d =>
    let n := d.length
    match listMaxZ (d.map Prod.fst) with
    | none => .error .valueError
    | some mx =>
      if mx ≥ (n : ℤ) then .error .keyError
      else
        match d.find? (fun p => p.1 == 0) with
        | none => .error .keyError
        | some p =>
          if pyStartswith p.2 "n0" then .error (.nameError "yaml_load")
          else .ok d

/-! ## `Sum` (lines 34–52)

Tensor addition and scalar multiplication are pointwise, so a scalar carrier
suffices; `torch.sigmoid` is an oracle parameter.  The learned parameter
`self.w` has `n - 1` entries. -/

/-- `Sum.forward` (lines 43–52): `y = x[0]`, then for `i in range(n-1)`
either `y += x[i+1]` or `y += x[i+1] * (sigmoid(w[i]) * 2)`. -/
def sumForward (sigmoid : ℚ → ℚ) (useWeight : Bool) (n : ℕ) (w x : List ℚ) : ℚ :=
  let y0 := x.getD 0 0
  if useWeight then
    (List.range (n - 1)).foldl (fun y i => y + x.getD (i + 1) 0 * (sigmoid (w.getD i 0) * 2)) y0
  else
    (List.range (n - 1)).foldl (fun y i => y + x.getD (i + 1) 0) y0

/-! ## `MixConv2d` (lines 55–77), `equal_ch=True` channel split -/

/-- `torch.linspace a b steps`: `steps` evenly spaced points from `a` to
`b` inclusive; a single point is `a`. -/
def linspaceQ (a b : ℚ) (steps : ℕ) : List ℚ :=
  if steps ≤ 1 then List.replicate steps a
  else (List.range steps).map (fun (j : ℕ) => a + (b - a) * (j : ℚ) / ((steps : ℚ) - 1))

/-- Lines 61–62: `i = torch.linspace(0, n - 1E-6, c2).floor()`;
`c_ = [(i == g).sum() for g in range(n)]`. -/
def mixconvSplit (n c2 : ℕ) : List ℕ :=
  let i : List ℤ := (linspaceQ 0 ((n : ℚ) - 1 / 1000000) c2).map Int.floor
  (List.range n).map (fun (g : ℕ) => (i.filter (fun v => v == (g : ℤ))).length)

/-- The constructor arguments of one `nn.Conv2d` member. -/
structure Conv2dArgs where
  in_channels : ℕ
  out_channels : ℕ
  kernel : ℕ
  stride : ℕ
  padding : ℕ
  groups : ℕ
  bias : Bool
deriving DecidableEq, Repr

/-- Lines 71–72 (with the default `equal_ch=True` split): one member per
kernel size, `nn.Conv2d(c1, int(c_), k, s, k // 2, groups=math.gcd(c1,
int(c_)), bias=False)`. -/
def mixconvMembers (c1 c2 : ℕ) (k : List ℕ) (s : ℕ) : List Conv2dArgs :=
  let c_ := mixconvSplit k.length c2
  (k.zip c_).map (fun kc =>
    { in_channels := c1, out_channels := kc.2, kernel := kc.1, stride := s,
      padding := kc.1 / 2, groups := Nat.gcd c1 kc.2, bias := false })

/-! ## `Ensemble` (lines 80–90)

A 2-D tensor is a list of rows; `torch.cat(y, 1)` concatenates row-wise. -/

/-- `torch.cat(ys, 1)` for 2-D tensors with equal first dimension. -/
def cat1 (ts : List (List (List ℚ))) : List (List ℚ) :=
  match ts with
  | [] => []
  | t0 :: _ => (List.range t0.length).map (fun r => (ts.map (fun t => t.getD r [])).flatten)

/-! ## `torch_safe_load` (lines 92–114)

`attempt_download`, and the two `torch.load` attempts (before and after
`check_requirements` may have installed a module), are oracles.  The second
component of the result is the trace of `check_requirements` calls. -/

/-- Outcome of one external `torch.load` call. -/
inductive LoadOutcome (α : Type)
  | success (v : α)
  | raise (e : PyErr)

/-- The external world seen by `torch_safe_load`. -/
structure TorchEnv (α : Type) where
  download : String → String
  load1 : String → LoadOutcome α
  load2 : String → LoadOutcome α

/-- `torch_safe_load` (lines 92–114): download, `torch.load`; on
`ModuleNotFoundError` call `check_requirements(e.name)` (recorded in the
trace; the `omegaconf` warning only logs) and retry `torch.load` once,
letting any exception of the retry propagate. -/
def torch_safe_load {α : Type} (env : TorchEnv α) (weight : String) :
    Except PyErr α × List String :=
  let file := env.download weight
  match env.load1 file with
  | .success v => (.ok v, [])
  | .raise (.moduleNotFound nm) =>
    match env.load2 file with
    | .success v => (.ok v, [nm])
    | .raise e2 => (.error e2, [nm])
  | .raise e => (.error e, [])

/-! ## Module objects and the compatibility loop of `attempt_load`
(lines 118–153) -/

/-- The module classes occurring in the compatibility updates. -/
inductive ModType
  | hardswish | leakyReLU | reLU | reLU6 | siLU
  | modelT | v8Detect | v8Segment
  | detect | decoupledDetect | kptDetect | iKeypoint | asffDetect
  | iDetect | segment | iBin | iAuxDetect
  | conv | upsample | other
deriving DecidableEq, Repr

/-- An `anchor_grid` attribute: a tensor or a Python list of tensors. -/
inductive AnchorGrid
  | tensor (vals : List ℚ)
  | list (grids : List (List ℚ))
deriving DecidableEq, Repr

/-- `isinstance(m.anchor_grid, list)`. -/
def isListAnchor : AnchorGrid → Bool
  | .tensor _ => false
  | .list _ => true

/-- One module of a model tree, with the attributes the loop touches. -/
structure PyModule where
  mtype : ModType
  inplace : Bool
  anchor_grid : AnchorGrid
  nl : ℕ
  hasRecompute : Bool
  nonPersistentCleared : Bool
deriving DecidableEq, Repr

/-- A Python class reference: one of the module classes above, or the
metaclass `type` (the class of every ordinary class object). -/
inductive PyClassRef
  | modClass (t : ModType)
  | metaType
deriving DecidableEq, Repr

/-- The class of a class object: ordinary classes are instances of `type`. -/
def classOfClassObj (_ : PyClassRef) : PyClassRef := .metaType

/-- `isinstance(x, C)` for the flat class hierarchy of this module, given
the class of `x`: it holds exactly when that class is `C`. -/
def pyIsinstance (classOfX : PyClassRef) (c : PyClassRef) : Bool := classOfX == c

/-- The tuple on line 136:
`(nn.Hardswish, nn.LeakyReLU, nn.ReLU, nn.ReLU6, nn.SiLU, Model, V8_Detect, V8_Segment)`. -/
def line136Tuple : List ModType :=
  [.hardswish, .leakyReLU, .reLU, .reLU6, .siLU, .modelT, .v8Detect, .v8Segment]

/-- The class tuple on line 138 (with its duplicated entries as written):
`(Detect, Decoupled_Detect, Kpt_Detect, IKeypoint, ASFF_Detect, IDetect,
Segment, IBin, IAuxDetect, Segment, IBin, IAuxDetect)`. -/
def line138Classes : List ModType :=
  [.detect, .decoupledDetect, .kptDetect, .iKeypoint, .asffDetect,
   .iDetect, .segment, .iBin, .iAuxDetect, .segment, .iBin, .iAuxDetect]

/-- The body of the compatibility loop of `attempt_load` (lines 134–144)
for one module `m`, with `t = type(m)`.  Line 138 tests
`isinstance(t, (Detect, ...))`: its first argument is the class object `t`,
whose own class is the metaclass `type`, so the test is evaluated through
`pyIsinstance` applied to `classOfClassObj`. -/
def compatUpdate (inplace : Bool) (m : PyModule) : PyModule :=
  let t := m.mtype
  if t ∈ line136Tuple then
    let m1 := { m with inplace := inplace }
    if (line138Classes.any fun c =>
          pyIsinstance (classOfClassObj (.modClass t)) (.modClass c))
        && !(isListAnchor m1.anchor_grid) then
      { m1 with anchor_grid := .list (List.replicate m1.nl [0]) }
    else m1
  else if t = .conv then { m with nonPersistentCleared := true }
  else if t = .upsample ∧ m.hasRecompute = false then { m with hasRecompute := true }
  else m

/-! ## Checkpoint models and `attempt_load` -/

/-- The argument `weights` of `attempt_load`: a single path or a list. -/
inductive Weights
  | single (w : String)
  | list (ws : List String)
deriving DecidableEq, Repr

/-- `weights if isinstance(weights, list) else [weights]` (line 123). -/
def weightsList : Weights → List String
  | .single w => [w]
  | .list ws => ws

/-- A deserialized checkpoint model with the attributes `attempt_load`
reads or writes.  `submodules` is the flattened `modules()` tree. -/
structure YModel where
  strideAttr : Option (List ℚ)
  nc : ℕ
  names : List String
  yaml : String
  submodules : List PyModule
  pt_path : Option Weights
deriving DecidableEq, Repr

/-- A checkpoint dict as produced by `torch.load`: line 126 takes
`ckpt.get('ema') or ckpt['model']`. -/
structure Ckpt where
  ema : Option YModel
  model : YModel
deriving DecidableEq, Repr

/-- `ckpt.get('ema') or ckpt['model']` (a model object is truthy). -/
def effModel (ck : Ckpt) : YModel :=
  match ck.ema with
  | some e => e
  | none => ck.model

/-- Lines 124–131 for one checkpoint: pick `ema or model`, attach
`pt_path = weights`, default a missing `stride` to `tensor([32.])`
(`.to(device).float().fuse().eval()` are identity on tracked attributes). -/
def processCkpt (weightsArg : Weights) (ck : Ckpt) : YModel :=
  let m := effModel ck
  let m := { m with pt_path := some weightsArg }
  if m.strideAttr.isSome then m else { m with strideAttr := some [32] }

/-- The compatibility loop applied to every module of a member. -/
def compatModel (inplace : Bool) (m : YModel) : YModel :=
  { m with submodules := m.submodules.map (compatUpdate inplace) }

/-- `t.max()` for a stride tensor (the real call errors on an empty
tensor; theorems about it carry a nonemptiness hypothesis). -/
def tensorMax (l : List ℚ) : ℚ :=
  match l with
  | [] => 0
  | a :: t => t.foldl max a

/-- `torch.argmax` over a vector: the index of the first maximal entry. -/
def argmaxIdx : List ℚ → ℕ
  | [] => 0
  | [_] => 0
  | a :: b :: t =>
    let j := argmaxIdx (b :: t)
    if a < (b :: t).getD j 0 then j + 1 else 0

/-- The ensemble object returned for two or more weights, with the
attributes copied onto it on lines 149–151. -/
structure EnsembleObj where
  members : List YModel
  names : List String
  nc : ℕ
  yaml : String
  stride : List ℚ
deriving DecidableEq, Repr

/-- The value returned by `attempt_load`. -/
inductive Loaded
  | single (m : YModel)
  | ensemble (e : EnsembleObj)
deriving DecidableEq, Repr

/-- A throwaway model used as a `getD` default in statements. -/
def dummyModel : YModel :=
  { strideAttr := none, nc := 0, names := [], yaml := "", submodules := [], pt_path := none }

/-- The dispatch on the collected members (lines 146–153, mirrored on
lines 207–217): one member returns `model[-1]`; otherwise `names`, `nc`,
`yaml` are copied from `model[0]`, `stride` is the stride of the member of
maximal `stride.max()`, and the class counts are asserted equal (an empty
weights list hits `model[0]` and raises `IndexError`). -/
def assembleResult (ms : List YModel) : Except PyErr Loaded :=
  match ms with
  | [] => .error .indexError
  | [m] => .ok (.single m)
  | m0 :: m1 :: rest =>
    let all := m0 :: m1 :: rest
    let strideMaxes := all.map (fun m => tensorMax (m.strideAttr.getD []))
    let j := argmaxIdx strideMaxes
    let stride := ((all.getD j dummyModel).strideAttr).getD []
    if all.all (fun m => m.nc == m0.nc) then
      .ok (.ensemble { members := all, names := m0.names, nc := m0.nc,
                       yaml := m0.yaml, stride := stride })
    else .error .assertionError

/-- The member models collected by the loop on lines 123–131 after the
compatibility updates of lines 134–144. -/
def loadEnsembleMembers (loader : String → Ckpt) (weights : Weights) (inplace : Bool) :
    List YModel :=
  ((weightsList weights).map (fun w => processCkpt weights (loader w))).map
    (compatModel inplace)

/-- `attempt_load` (lines 118–153) given a loading oracle (one
successfully deserialized checkpoint per weight path). -/
def attempt_load (loader : String → Ckpt) (weights : Weights) (inplace : Bool) :
    Except PyErr Loaded :=
  assembleResult (loadEnsembleMembers loader weights inplace)

/-- The checkpoint models contained in a result of `attempt_load`. -/
def loadedModels : Except PyErr Loaded → List YModel
  | .ok (.single m) => [m]
  | .ok (.ensemble e) => e.members
  | .error _ => []

/-- `Ensemble.forward` (lines 85–90) of a returned ensemble, given the
member models' forward oracle (each member call returns the
inference/train pair and `[0]` takes the first component): the nms
ensemble `torch.cat(y, 1)` paired with `None`. -/
def ensembleForward (fwd : YModel → List (List ℚ) → List (List ℚ) × List (List ℚ))
    (e : EnsembleObj) (x : List (List ℚ)) : List (List ℚ) × Option (List (List ℚ)) :=
  let y := e.members.map (fun m => (fwd m x).1)
  (cat1 y, none)

/-! ## `attempt_load_weights` (lines 181–217) and its name resolution

Line 202 mentions `Detect` and `Segment`.  The names bound in scope there
are the function's locals and the module's globals (the module imports
`Conv`, `attempt_download`, `check_requirements`, `check_yaml` and defines
the listed functions and classes); `Detect` and `Segment` are in neither. -/

/-- The global names of `models/experimental.py` (imports on lines 5–14
and the module-level definitions). -/
def experimentalGlobals : List String :=
  ["math", "np", "torch", "nn", "Conv", "attempt_download", "check_requirements",
   "check_yaml", "logging", "LOGGER", "check_class_names", "Sum", "MixConv2d",
   "Ensemble", "torch_safe_load", "attempt_load", "attempt_load_one_weight",
   "attempt_load_weights"]

/-- The local names of `attempt_load_weights` (parameters, the two names
imported on line 183, and the variables assigned in the body). -/
def attemptLoadWeightsLocals : List String :=
  ["weights", "device", "inplace", "fuse", "DEFAULT_CFG_DICT", "DEFAULT_CFG_KEYS",
   "model", "w", "ckpt", "args", "m", "t"]

/-- The scope in which line 202 is evaluated. -/
def alwScope : List String := attemptLoadWeightsLocals ++ experimentalGlobals

/-- The names resolved, left to right, when the tuple
`(nn.Hardswish, nn.LeakyReLU, nn.ReLU, nn.ReLU6, nn.SiLU, Detect, Segment)`
on line 202 is evaluated (attribute access only resolves `nn`). -/
def line202Names : List String := ["nn", "nn", "nn", "nn", "nn", "Detect", "Segment"]

/-- Left-to-right name resolution: the first unbound name raises
`NameError`. -/
def evalNames (scope : List String) : List String → Except PyErr Unit
  | [] => .ok ()
  | nm :: rest => if nm ∈ scope then evalNames scope rest else .error (.nameError nm)

/-- A checkpoint dict as read by `attempt_load_weights`, which also
requires `ckpt['train_args']` (line 187). -/
structure CkptW where
  ema : Option YModel
  model : YModel
  train_args : List (String × String)
deriving DecidableEq, Repr

/-- Lines 186–197 for one checkpoint of `attempt_load_weights` (the
`args` attachment touches no tracked attribute). -/
def processCkptW (weightsArg : Weights) (ck : CkptW) : YModel :=
  let m := match ck.ema with | some e => e | none => ck.model
  let m := { m with pt_path := some weightsArg }
  if m.strideAttr.isSome then m else { m with strideAttr := some [32] }

/-- `model.modules()` of the ensemble container: the container module
itself first (so the list is never empty), then every member's modules. -/
def ensembleModules (ms : List YModel) : List PyModule :=
  { mtype := ModType.other, inplace := false, anchor_grid := .tensor [],
    nl := 0, hasRecompute := false, nonPersistentCleared := false }
    :: (ms.map (fun m => m.submodules)).flatten

/-- One iteration of the loop on lines 200–205: evaluating the tuple on
line 202 resolves its names first; were that to succeed, the membership
test and updates would follow. -/
def alwCompatStep (inplace : Bool) (m : PyModule) : Except PyErr PyModule :=
  match evalNames alwScope line202Names with
  | .error e => .error e
  | .ok _ =>
    .ok (if m.mtype ∈ [ModType.hardswish, .leakyReLU, .reLU, .reLU6, .siLU,
                       .detect, .segment] then
          { m with inplace := inplace }
         else if m.mtype = .upsample ∧ m.hasRecompute = false then
          { m with hasRecompute := true }
         else m)

/-- The loop on lines 200–205 over all modules; the first raised
exception propagates. -/
def alwLoop (inplace : Bool) : List PyModule → Except PyErr (List PyModule)
  | [] => .ok []
  | m :: rest =>
    match alwCompatStep inplace m with
    | .error e => .error e
    | .ok m2 =>
      match alwLoop inplace rest with
      | .error e => .error e
      | .ok r => .ok (m2 :: r)

/-- `attempt_load_weights` (lines 181–217): load and process each
checkpoint, then run the module-compatibility loop; afterwards dispatch on
the member count as `attempt_load` does. -/
def attempt_load_weights (loader : String → CkptW) (weights : Weights) (inplace : Bool) :
    Except PyErr Loaded :=
  let ms := (weightsList weights).map (fun w => processCkptW weights (loader w))
  match alwLoop inplace (ensembleModules ms) with
  | .error e => .error e
  | .ok _ => assembleResult ms

/-! ## Helper lemmas -/

/-- Folding `+` over `range m` from `c` sums the terms. -/
lemma foldl_add_range (f : ℕ → ℚ) (c : ℚ) (m : ℕ) :
    (List.range m).foldl (fun y i => y + f i) c = c + ∑ i ∈ Finset.range m, f i := by
  induction m with
  | zero => simp
  | succ m ih =>
    rw [List.range_succ, List.foldl_append, ih, Finset.sum_range_succ]
    simp [add_assoc]

/-- `getD` below the cut agrees with `getD` on the prefix. -/
lemma getD_take (x : List ℚ) (n j : ℕ) (d : ℚ) (hj : j < n) :
    (x.take n).getD j d = x.getD j d := by
  rw [List.getD_eq_getElem?_getD, List.getD_eq_getElem?_getD, List.getElem?_take, if_pos hj]

/-- Summing the per-value counts of a list whose values lie in `[0, n)`
recovers its length. -/
lemma sum_map_range_nat (f : ℕ → ℕ) (n : ℕ) :
    ((List.range n).map f).sum = ∑ g ∈ Finset.range n, f g := by
  induction n with
  | zero => simp
  | succ n ih =>
    rw [List.range_succ, List.map_append, List.sum_append, Finset.sum_range_succ, ih]
    simp

lemma count_filter_sum (n : ℕ) (l : List ℤ) (h : ∀ v ∈ l, 0 ≤ v ∧ v < (n : ℤ)) :
    ((List.range n).map (fun (g : ℕ) => (l.filter (fun v => v == (g : ℤ))).length)).sum
      = l.length := by
  induction l with
  | nil => simp
  | cons a t ih =>
    have ha := h a (List.mem_cons_self a t)
    have ht : ∀ v ∈ t, 0 ≤ v ∧ v < (n : ℤ) := fun v hv => h v (List.mem_cons_of_mem a hv)
    rw [sum_map_range_nat] at *
    have key : ∀ g : ℕ, ((a :: t).filter (fun v => v == (g : ℤ))).length
        = (if a = (g : ℤ) then 1 else 0) + (t.filter (fun v => v == (g : ℤ))).length := by
      intro g
      rw [List.filter_cons]
      by_cases hag : a = (g : ℤ)
      · simp [hag, Nat.add_comm]
      · simp [hag]
    simp only [key]
    rw [Finset.sum_add_distrib, ih ht]
    have hiff : ∀ g : ℕ, a = (g : ℤ) ↔ g = a.toNat := by
      intro g
      omega
    have hone : ∑ g ∈ Finset.range n, (if a = (g : ℤ) then 1 else 0) = 1 := by
      have hcongr : ∀ g ∈ Finset.range n,
          (if a = (g : ℤ) then 1 else 0) = if g = a.toNat then 1 else 0 := by
        intro g _
        by_cases hc : a = (g : ℤ)
        · rw [if_pos hc, if_pos ((hiff g).mp hc)]
        · rw [if_neg hc, if_neg (fun hg => hc ((hiff g).mpr hg))]
      rw [Finset.sum_congr rfl hcongr, Finset.sum_ite_eq' (Finset.range n) a.toNat (fun _ => 1)]
      have hmemrange : a.toNat ∈ Finset.range n := by
        rw [Finset.mem_range]
        omega
      simp [hmemrange]
    rw [hone]
    simp [add_comm]

/-- Every point of the `MixConv2d` linspace lies in `[0, n)`. -/
lemma linspace_bounds (n c2 : ℕ) (hn : 1 ≤ n) :
    ∀ v ∈ linspaceQ 0 ((n : ℚ) - 1 / 1000000) c2, 0 ≤ v ∧ v < (n : ℚ) := by
  intro v hv
  have hn' : (1 : ℚ) ≤ (n : ℚ) := by exact_mod_cast hn
  unfold linspaceQ at hv
  by_cases hsteps : c2 ≤ 1
  · rw [if_pos hsteps] at hv
    have := List.eq_of_mem_replicate hv
    subst this
    constructor
    · exact le_refl 0
    · linarith
  · rw [if_neg hsteps] at hv
    obtain ⟨j, hj, rfl⟩ := List.mem_map.mp hv
    have hj' : j < c2 := List.mem_range.mp hj
    have hc2 : (2 : ℕ) ≤ c2 := by omega
    have hpos : (0 : ℚ) < (c2 : ℚ) - 1 := by
      have : (2 : ℚ) ≤ (c2 : ℚ) := by exact_mod_cast hc2
      linarith
    have hb : (0 : ℚ) ≤ (n : ℚ) - 1 / 1000000 := by linarith
    have hjle : (j : ℚ) ≤ (c2 : ℚ) - 1 := by
      have : (j : ℚ) + 1 ≤ (c2 : ℚ) := by exact_mod_cast hj'
      linarith
    constructor
    · have hj0 : (0 : ℚ) ≤ (j : ℚ) := Nat.cast_nonneg j
      have hnum : (0 : ℚ) ≤ ((n : ℚ) - 1 / 1000000 - 0) * (j : ℚ) := by nlinarith
      have hq := div_nonneg hnum (le_of_lt hpos)
      linarith
    · have h1 : ((n : ℚ) - 1 / 1000000 - 0) * (j : ℚ) / ((c2 : ℚ) - 1)
          ≤ (n : ℚ) - 1 / 1000000 := by
        rw [div_le_iff₀ hpos]
        calc ((n : ℚ) - 1 / 1000000 - 0) * (j : ℚ)
            = ((n : ℚ) - 1 / 1000000) * (j : ℚ) := by ring
          _ ≤ ((n : ℚ) - 1 / 1000000) * ((c2 : ℚ) - 1) :=
              mul_le_mul_of_nonneg_left hjle hb
      linarith

/-- The linspace has `steps` points. -/
lemma linspace_length (a b : ℚ) (steps : ℕ) : (linspaceQ a b steps).length = steps := by
  unfold linspaceQ
  by_cases h : steps ≤ 1 <;> simp [h]

/-! ## C7: the `Sum` layer -/

/-- C7.  For a `Sum` layer with `n ≥ 2` inputs, an input list of length at
least `n` and a learned weight vector of length `n - 1`: without weights
`forward` returns `x[0] + ... + x[n-1]`; with weights it returns
`x[0] + Σ_{i<n-1} x[i+1] * (2 * sigmoid(w[i]))`; entries of `x` beyond
index `n - 1` never affect the result. -/
theorem sum_forward_spec (sigmoid : ℚ → ℚ) (n : ℕ) (w x : List ℚ)
    (hn : 2 ≤ n) (hx : n ≤ x.length) (hw : w.length = n - 1) :
    (sumForward sigmoid false n w x = ∑ j ∈ Finset.range n, x.getD j 0) ∧
    (sumForward sigmoid true n w x
      = x.getD 0 0 + ∑ i ∈ Finset.range (n - 1), x.getD (i + 1) 0 * (2 * sigmoid (w.getD i 0))) ∧
    (∀ x' : List ℚ, x.take n = x'.take n →
      sumForward sigmoid false n w x = sumForward sigmoid false n w x' ∧
      sumForward sigmoid true n w x = sumForward sigmoid true n w x') := by
  have hpred : n - 1 + 1 = n := by omega
  have base : ∀ (z : List ℚ),
      sumForward sigmoid false n w z = ∑ j ∈ Finset.range n, z.getD j 0 := by
    intro z
    unfold sumForward
    rw [if_neg (by simp), foldl_add_range]
    conv_rhs => rw [← hpred]
    rw [Finset.sum_range_succ' (fun j => z.getD j 0) (n - 1)]
    ring
  have baseW : ∀ (z : List ℚ),
      sumForward sigmoid true n w z
        = z.getD 0 0 + ∑ i ∈ Finset.range (n - 1), z.getD (i + 1) 0 * (2 * sigmoid (w.getD i 0)) := by
    intro z
    unfold sumForward
    rw [if_pos rfl, foldl_add_range]
    congr 1
    exact Finset.sum_congr rfl (fun i _ => by ring)
  refine ⟨base x, baseW x, ?_⟩
  intro x' htake
  have hagree : ∀ j < n, x.getD j 0 = x'.getD j 0 := by
    intro j hj
    rw [← getD_take x n j 0 hj, ← getD_take x' n j 0 hj, htake]
  constructor
  · rw [base x, base x']
    exact Finset.sum_congr rfl (fun j hj => hagree j (Finset.mem_range.mp hj))
  · rw [baseW x, baseW x']
    have h0 : x.getD 0 0 = x'.getD 0 0 := hagree 0 (by omega)
    rw [h0]
    congr 1
    refine Finset.sum_congr rfl (fun i hi => ?_)
    rw [hagree (i + 1) (by have := Finset.mem_range.mp hi; omega)]

/-- C7 witness: the theorem applied at `sigmoid = id`, `n = 3`,
`w = [1, 2]`, `x = [1, 2, 3, 100]`. -/
theorem sum_forward_spec_witness :
    2 ≤ 3 ∧ (3 : ℕ) ≤ ([1, 2, 3, 100] : List ℚ).length ∧
    (sumForward (fun t => t) false 3 [1, 2] [1, 2, 3, 100]
      = ∑ j ∈ Finset.range 3, ([1, 2, 3, 100] : List ℚ).getD j 0) :=
  ⟨by omega, by simp,
    (sum_forward_spec (fun t => t) 3 [1, 2] [1, 2, 3, 100]
      (by omega) (by simp) (by simp)).1⟩

/-! ## C9: the `equal_ch` channel split of `MixConv2d` -/

/-- C9.  For `equal_ch=True`, `n ≥ 1` kernels and `c2 ≥ 1` output
channels, the intermediate channel counts are `n` natural numbers (hence
nonnegative) summing to `c2`, so the concatenated output has exactly `c2`
channels. -/
theorem mixconv_split_channels (n c2 : ℕ) (hn : 1 ≤ n) (hc : 1 ≤ c2) :
    (mixconvSplit n c2).length = n ∧ (mixconvSplit n c2).sum = c2 := by
  constructor
  · simp [mixconvSplit]
  · unfold mixconvSplit
    have hbnd : ∀ v ∈ (linspaceQ 0 ((n : ℚ) - 1 / 1000000) c2).map Int.floor,
        0 ≤ v ∧ v < (n : ℤ) := by
      intro v hv
      obtain ⟨q, hq, rfl⟩ := List.mem_map.mp hv
      obtain ⟨h0, h1⟩ := linspace_bounds n c2 hn q hq
      exact ⟨Int.floor_nonneg.mpr h0, Int.floor_lt.mpr (by exact_mod_cast h1)⟩
    rw [count_filter_sum n _ hbnd, List.length_map, linspace_length]

/-- C9 witness: the theorem applied at `n = 2`, `c2 = 4`. -/
theorem mixconv_split_channels_witness :
    1 ≤ 2 ∧ 1 ≤ 4 ∧ ((mixconvSplit 2 4).length = 2 ∧ (mixconvSplit 2 4).sum = 4) :=
  ⟨by omega, by omega, mixconv_split_channels 2 4 (by omega) (by omega)⟩

/-! ## C8: the group count of the `MixConv2d` member convolutions -/

/-- The concrete channel split for `c2 = 4` over two kernels, evaluated
from the linspace. -/
lemma mixconvSplit_two_four : mixconvSplit 2 4 = [2, 2] := by
  simp [mixconvSplit, linspaceQ, List.range_succ]
  norm_num

/-- The first member convolution of `MixConv2d(3, 4, k=(1, 3), s=1)`. -/
def mixMember0 : Conv2dArgs :=
  { in_channels := 3, out_channels := 2, kernel := 1, stride := 1,
    padding := 0, groups := 1, bias := false }

/-- `MixConv2d(3, 4, k=(1, 3), s=1)` builds members with channel split
`[2, 2]` and group counts `gcd(3, 2) = 1`. -/
lemma mixconvMembers_341 :
    mixconvMembers 3 4 [1, 3] 1
      = [mixMember0,
         { in_channels := 3, out_channels := 2, kernel := 3, stride := 1,
           padding := 1, groups := 1, bias := false }] := by
  rw [mixconvMembers]
  simp only [List.length_cons, List.length_nil]
  rw [show (0 + 1 + 1 : ℕ) = 2 from rfl, mixconvSplit_two_four]
  rfl

/-- C8 counterexample: for `c1 = 3`, `c2 = 4`, `k = (1, 3)`, `s = 1` the
member convolutions use `groups = gcd(3, 2) = 1 ≠ c1`, so `MixConv2d` is
not depthwise over its input. -/
theorem mixconv_not_depthwise :
    ¬ ∀ m ∈ mixconvMembers 3 4 [1, 3] 1, m.groups = 3 := by
  intro h
  have hmem : mixMember0 ∈ mixconvMembers 3 4 [1, 3] 1 := by
    rw [mixconvMembers_341]
    exact List.mem_cons_self _ _
  have := h _ hmem
  simp [mixMember0] at this

/-- C8 amended.  Every member convolution of `MixConv2d` takes its whole
input (`in_channels = c1`) and uses group count `gcd(c1, c_)` for its
intermediate channel count `c_`; it is depthwise (`groups = c1`) exactly
when `c1` divides `c_`. -/
theorem mixconv_groups_gcd (c1 c2 : ℕ) (k : List ℕ) (s : ℕ) :
    ∀ m ∈ mixconvMembers c1 c2 k s,
      m.in_channels = c1 ∧ m.groups = Nat.gcd c1 m.out_channels ∧
      (c1 ∣ m.out_channels → m.groups = c1) := by
  intro m hm
  obtain ⟨kc, _, rfl⟩ := List.mem_map.mp hm
  refine ⟨rfl, rfl, fun hdvd => ?_⟩
  exact Nat.gcd_eq_left hdvd

/-- C8 witness: the amended theorem applied to the first member of the
`c1 = 3`, `c2 = 4`, `k = (1, 3)` instance. -/
theorem mixconv_groups_gcd_witness :
    mixMember0 ∈ mixconvMembers 3 4 [1, 3] 1 ∧
    mixMember0.groups = Nat.gcd 3 mixMember0.out_channels := by
  have hmem : mixMember0 ∈ mixconvMembers 3 4 [1, 3] 1 := by
    rw [mixconvMembers_341]
    exact List.mem_cons_self _ _
  exact ⟨hmem, (mixconv_groups_gcd 3 4 [1, 3] 1 _ hmem).2.1⟩

/-! ## C3: the `anchor_grid` compatibility shim is dead code -/

/-- C3 (code bug).  The inner test on line 138 reads
`isinstance(t, (Detect, ...))` with `t = type(m)`: a class object is an
instance of the metaclass `type`, never of these `nn.Module` subclasses,
so the test is always false (and `Detect` etc. are not in the outer tuple
on line 136 either): the compatibility loop of `attempt_load` never
replaces any module's `anchor_grid`, for every module and `inplace`
flag. -/
theorem compat_anchor_grid_unchanged (inplace : Bool) (m : PyModule) :
    (compatUpdate inplace m).anchor_grid = m.anchor_grid := by
  have hiso : ∀ t : ModType, (line138Classes.any fun c =>
      pyIsinstance (classOfClassObj (.modClass t)) (.modClass c)) = false := fun _ => rfl
  unfold compatUpdate
  simp only [hiso, Bool.false_and, Bool.false_eq_true, if_false]
  split_ifs <;> rfl

/-! ## C2: `attempt_load_weights` always raises `NameError` -/

/-- Each iteration of the loop on lines 200–205 fails on the unbound name
`Detect` before doing anything else. -/
lemma alwCompatStep_nameError (inplace : Bool) (m : PyModule) :
    alwCompatStep inplace m = .error (.nameError "Detect") := rfl

/-- C2.  For every loader on which checkpoint loading succeeds,
`attempt_load_weights` raises `NameError` for the unbound name `Detect`
when it reaches its module-compatibility loop (`model.modules()` always
yields at least the `Ensemble` container), so it never returns a model or
an ensemble. -/
theorem attempt_load_weights_raises (loader : String → CkptW) (weights : Weights)
    (inplace : Bool) :
    attempt_load_weights loader weights inplace = .error (.nameError "Detect") := by
  unfold attempt_load_weights ensembleModules alwLoop
  rw [alwCompatStep_nameError]

/-! ## C4: `torch_safe_load` -/

/-- C4.  `torch_safe_load` resolves the weight through `attempt_download`
and calls `torch.load` on the resolved file; it calls `check_requirements`
(with the missing module's name) and retries `torch.load` exactly once iff
the first `torch.load` raises `ModuleNotFoundError`; the value of a
successful attempt is returned and any exception of the retry, or any
non-`ModuleNotFoundError` of the first attempt, propagates. -/
theorem torch_safe_load_spec {α : Type} (env : TorchEnv α) (w : String) :
    (∀ v, env.load1 (env.download w) = .success v →
      torch_safe_load env w = (.ok v, [])) ∧
    (∀ nm, env.load1 (env.download w) = .raise (.moduleNotFound nm) →
      (torch_safe_load env w).2 = [nm] ∧
      (∀ v, env.load2 (env.download w) = .success v →
        (torch_safe_load env w).1 = .ok v) ∧
      (∀ e2, env.load2 (env.download w) = .raise e2 →
        (torch_safe_load env w).1 = .error e2)) ∧
    (∀ e, env.load1 (env.download w) = .raise e → (∀ nm, e ≠ .moduleNotFound nm) →
      torch_safe_load env w = (.error e, [])) ∧
    ((torch_safe_load env w).2 = []
      ↔ ∀ nm, env.load1 (env.download w) ≠ .raise (.moduleNotFound nm)) := by
  refine ⟨?_, ?_, ?_, ?_⟩
  · intro v hv
    simp only [torch_safe_load]
    rw [hv]
  · intro nm h1
    simp only [torch_safe_load]
    rw [h1]
    cases h2 : env.load2 (env.download w) with
    | success v => exact ⟨rfl, fun v' hv' => by simp_all, fun e2 he2 => by simp_all⟩
    | raise e2 => exact ⟨rfl, fun v' hv' => by simp_all, fun e2' he2' => by simp_all⟩
  · intro e h1 hnot
    simp only [torch_safe_load]
    rw [h1]
    cases e with
    | moduleNotFound nm => exact absurd rfl (hnot nm)
    | nameError s => rfl
    | keyError => rfl
    | valueError => rfl
    | indexError => rfl
    | assertionError => rfl
    | otherError s => rfl
  · simp only [torch_safe_load]
    cases h1 : env.load1 (env.download w) with
    | success v => simp [h1]
    | raise e =>
      cases e with
      | moduleNotFound nm =>
        cases h2 : env.load2 (env.download w) with
        | success v =>
          simp only [List.cons_ne_self, false_iff, not_forall]
          exact ⟨nm, fun h => h rfl⟩
        | raise e2 =>
          simp only [List.cons_ne_self, false_iff, not_forall]
          exact ⟨nm, fun h => h rfl⟩
      | nameError s => simp [h1]
      | keyError => simp [h1]
      | valueError => simp [h1]
      | indexError => simp [h1]
      | assertionError => simp [h1]
      | otherError s => simp [h1]

/-- The oracle of the C4 witness: the first load misses `omegaconf`, the
retry succeeds with the value `7`. -/
def envW : TorchEnv ℕ :=
  { download := fun s => s ++ ".resolved",
    load1 := fun _ => .raise (.moduleNotFound "omegaconf"),
    load2 := fun _ => .success 7 }

/-- C4 witness: the theorem applied to `envW`, discharging the
`ModuleNotFoundError` and retry-success hypotheses at `omegaconf`/`7`. -/
theorem torch_safe_load_spec_witness :
    (torch_safe_load envW "yolov5s").2 = ["omegaconf"] ∧
    (torch_safe_load envW "yolov5s").1 = .ok 7 := by
  have h := (torch_safe_load_spec envW "yolov5s").2.1 "omegaconf" rfl
  exact ⟨h.1, h.2.1 7 rfl⟩

/-! ## Helper lemmas on `foldl max` and `argmaxIdx` -/

section MaxLemmas

variable {α : Type} [LinearOrder α]

/-- The seed is below the folded max. -/
lemma foldl_max_seed_le (a : α) (l : List α) : a ≤ l.foldl max a := by
  induction l generalizing a with
  | nil => exact le_refl a
  | cons b t ih => exact le_trans (le_max_left a b) (ih (max a b))

/-- Everything folded into a running max is below it. -/
lemma le_foldl_max (a x : α) (l : List α) (hx : x = a ∨ x ∈ l) : x ≤ l.foldl max a := by
  induction l generalizing a with
  | nil =>
    rcases hx with rfl | h
    · exact le_refl x
    · cases h
  | cons b t ih =>
    rw [List.foldl_cons]
    rcases hx with rfl | h
    · exact le_trans (le_max_left x b) (foldl_max_seed_le (max x b) t)
    · rcases List.mem_cons.mp h with rfl | ht
      · exact le_trans (le_max_right a x) (foldl_max_seed_le (max a x) t)
      · exact ih (max a b) (Or.inr ht)

/-- A folded max is the seed or one of the elements. -/
lemma foldl_max_cases (a : α) (l : List α) : l.foldl max a = a ∨ l.foldl max a ∈ l := by
  induction l generalizing a with
  | nil => exact Or.inl rfl
  | cons b t ih =>
    rw [List.foldl_cons]
    rcases ih (max a b) with h | h
    · rcases max_cases a b with ⟨hm, _⟩ | ⟨hm, _⟩
      · exact Or.inl (h.trans hm)
      · exact Or.inr (by rw [h, hm]; exact List.mem_cons_self b t)
    · exact Or.inr (List.mem_cons_of_mem b h)

/-- `listMaxZ` returns an element that bounds the whole list. -/
lemma listMaxZ_spec (l : List ℤ) (mx : ℤ) (h : listMaxZ l = some mx) :
    mx ∈ l ∧ ∀ x ∈ l, x ≤ mx := by
  cases l with
  | nil => cases h
  | cons a t =>
    have hmx : mx = t.foldl max a := by
      simpa [listMaxZ] using h.symm
    constructor
    · rcases foldl_max_cases a t with h1 | h1
      · rw [hmx, h1]; exact List.mem_cons_self a t
      · rw [hmx]; exact List.mem_cons_of_mem a h1
    · intro x hx
      rw [hmx]
      rcases List.mem_cons.mp hx with rfl | hxt
      · exact le_foldl_max x x t (Or.inl rfl)
      · exact le_foldl_max a x t (Or.inr hxt)

end MaxLemmas

/-- `argmaxIdx` is in range on a nonempty list. -/
lemma argmaxIdx_lt_length (l : List ℚ) (h : l ≠ []) : argmaxIdx l < l.length := by
  induction l with
  | nil => exact absurd rfl h
  | cons a t ih =>
    cases t with
    | nil => simp [argmaxIdx]
    | cons b r =>
      rw [argmaxIdx]
      by_cases hc : a < (b :: r).getD (argmaxIdx (b :: r)) 0
      · rw [if_pos hc]
        have := ih (by simp)
        simpa using Nat.succ_lt_succ this
      · rw [if_neg hc]
        simp

/-- The entry at `argmaxIdx` dominates every entry of the list. -/
lemma argmaxIdx_spec (l : List ℚ) (i : ℕ) (hi : i < l.length) :
    l.getD i 0 ≤ l.getD (argmaxIdx l) 0 := by
  induction l generalizing i with
  | nil => simp at hi
  | cons a t ih =>
    cases t with
    | nil =>
      have : i = 0 := by simpa using hi
      subst this
      simp [argmaxIdx]
    | cons b r =>
      rw [argmaxIdx]
      by_cases hc : a < (b :: r).getD (argmaxIdx (b :: r)) 0
      · rw [if_pos hc]
        cases i with
        | zero => simpa using le_of_lt hc
        | succ i' =>
          have h1 := ih i' (by simpa using hi)
          simpa using h1
      · rw [if_neg hc]
        push_neg at hc
        cases i with
        | zero => simp
        | succ i' =>
          have h1 := ih i' (by simpa using hi)
          simpa using le_trans h1 hc

/-- An in-range `getD` on a mapped list applies the map to the `getD`. -/
lemma getD_map_lt {β : Type} [Inhabited β] (f : YModel → β) (l : List YModel) (i : ℕ)
    (hi : i < l.length) (d : β) :
    (l.map f).getD i d = f (l.getD i dummyModel) := by
  rw [List.getD_eq_getElem l dummyModel hi,
      List.getD_eq_getElem (l.map f) d (by simpa using hi), List.getElem_map]

/-! ## C5: the `stride` default -/

/-- Lines 129–131 for one checkpoint: the processed model's stride is the
original one if present, else `tensor([32.])`. -/
lemma processCkpt_stride (weightsArg : Weights) (ck : Ckpt) :
    (processCkpt weightsArg ck).strideAttr = some ((effModel ck).strideAttr.getD [32]) := by
  unfold processCkpt
  cases h : (effModel ck).strideAttr with
  | none => simp [h]
  | some s => simp [h]

/-- The compatibility loop only touches submodules, not `stride`. -/
lemma compatModel_stride (inplace : Bool) (m : YModel) :
    (compatModel inplace m).strideAttr = m.strideAttr := rfl

/-- Every model inside a result of `assembleResult` is one of the
collected members. -/
lemma loadedModels_assemble (ms : List YModel) :
    ∀ m ∈ loadedModels (assembleResult ms), m ∈ ms := by
  intro m hm
  match ms with
  | [] => simp [assembleResult, loadedModels] at hm
  | [m'] =>
    simp only [assembleResult, loadedModels, List.mem_singleton] at hm
    simp [hm]
  | m0 :: m1 :: rest =>
    rw [assembleResult] at hm
    by_cases hall : (m0 :: m1 :: rest).all (fun m => m.nc == m0.nc)
    · rw [if_pos hall] at hm
      simpa [loadedModels] using hm
    · rw [if_neg hall] at hm
      simp [loadedModels] at hm

/-- C5.  Every checkpoint model inside the value returned by
`attempt_load` carries a `stride` attribute: the deserialized model's own
stride when it had one, and the one-element tensor `[32.]` otherwise. -/
theorem attempt_load_stride (loader : String → Ckpt) (weights : Weights) (inplace : Bool) :
    ∀ m ∈ loadedModels (attempt_load loader weights inplace),
      ∃ w ∈ weightsList weights,
        m.strideAttr = some ((effModel (loader w)).strideAttr.getD [32]) ∧
        ((effModel (loader w)).strideAttr.isSome →
          m.strideAttr = (effModel (loader w)).strideAttr) := by
  intro m hm
  have hm2 : m ∈ loadEnsembleMembers loader weights inplace :=
    loadedModels_assemble _ m hm
  obtain ⟨m1, hm1, rfl⟩ := List.mem_map.mp hm2
  obtain ⟨w, hw, rfl⟩ := List.mem_map.mp hm1
  refine ⟨w, hw, ?_, ?_⟩
  · rw [compatModel_stride, processCkpt_stride]
  · intro hsome
    rw [compatModel_stride, processCkpt_stride]
    obtain ⟨s, hs⟩ := Option.isSome_iff_exists.mp hsome
    rw [hs]
    rfl

/-- The C5 witness checkpoint: its deserialized model has no `stride`. -/
def ckNoStride : Ckpt :=
  { ema := none,
    model := { strideAttr := none, nc := 80, names := ["person"], yaml := "y",
               submodules := [], pt_path := none } }

/-- The single loaded model of the C5 witness. -/
def mW5 : YModel := compatModel true (processCkpt (.single "w.pt") ckNoStride)

/-- C5 witness: the theorem applied to a single checkpoint without a
stride; the loaded model ends up with stride `[32.]`. -/
theorem attempt_load_stride_witness :
    mW5 ∈ loadedModels (attempt_load (fun _ => ckNoStride) (.single "w.pt") true) ∧
    ∃ w ∈ weightsList (Weights.single "w.pt"),
      mW5.strideAttr = some ((effModel ckNoStride).strideAttr.getD [32]) ∧
      ((effModel ckNoStride).strideAttr.isSome →
        mW5.strideAttr = (effModel ckNoStride).strideAttr) := by
  have hmem : mW5 ∈ loadedModels (attempt_load (fun _ => ckNoStride) (.single "w.pt") true) := by
    decide
  exact ⟨hmem, attempt_load_stride (fun _ => ckNoStride) (.single "w.pt") true mW5 hmem⟩

/-! ## C6 and C1: ensemble assembly -/

/-- Lines 146–153 on two or more members: `AssertionError` exactly when
the class counts differ, otherwise the ensemble object with the copied
attributes and the argmax stride. -/
lemma assembleResult_two (m0 m1 : YModel) (rest : List YModel) :
    (assembleResult (m0 :: m1 :: rest) = .error .assertionError
      ↔ ¬ ∀ m ∈ m0 :: m1 :: rest, m.nc = m0.nc) ∧
    ((∀ m ∈ m0 :: m1 :: rest, m.nc = m0.nc) →
      assembleResult (m0 :: m1 :: rest)
        = .ok (.ensemble
            { members := m0 :: m1 :: rest, names := m0.names, nc := m0.nc, yaml := m0.yaml,
              stride := (((m0 :: m1 :: rest).getD
                (argmaxIdx ((m0 :: m1 :: rest).map (fun m => tensorMax (m.strideAttr.getD []))))
                dummyModel).strideAttr).getD [] })) := by
  have hiff : ((m0 :: m1 :: rest).all (fun m => m.nc == m0.nc) = true)
      ↔ ∀ m ∈ m0 :: m1 :: rest, m.nc = m0.nc := by
    rw [List.all_eq_true]
    constructor
    · intro h m hm
      simpa using h m hm
    · intro h m hm
      simpa using h m hm
  by_cases hall : (m0 :: m1 :: rest).all (fun m => m.nc == m0.nc)
  · constructor
    · simp only [assembleResult, if_pos hall]
      constructor
      · intro h
        cases h
      · intro hne
        exact absurd (hiff.mp hall) hne
    · intro _
      simp only [assembleResult, if_pos hall]
  · constructor
    · simp only [assembleResult, if_neg hall]
      constructor
      · intro _
        intro hforall
        exact hall (hiff.mpr hforall)
      · intro _
        trivial
    · intro hforall
      exact absurd (hiff.mpr hforall) hall

/-- C6.  On two or more loaded models (with nonempty stride tensors),
`attempt_load` raises `AssertionError` iff the class counts `nc` are not
all equal; on success the ensemble's `names`, `nc` and `yaml` are those of
the first model and its `stride` is the stride of a member whose maximal
stride entry dominates every member's. -/
theorem attempt_load_ensemble_spec (loader : String → Ckpt) (weights : Weights) (inplace : Bool)
    (h2 : 2 ≤ (weightsList weights).length)
    (hstr : ∀ w ∈ weightsList weights, (effModel (loader w)).strideAttr ≠ some []) :
    (attempt_load loader weights inplace = .error .assertionError
      ↔ ¬ ∀ m ∈ loadEnsembleMembers loader weights inplace,
            m.nc = ((loadEnsembleMembers loader weights inplace).headD dummyModel).nc) ∧
    ((∀ m ∈ loadEnsembleMembers loader weights inplace,
        m.nc = ((loadEnsembleMembers loader weights inplace).headD dummyModel).nc) →
      ∃ e, attempt_load loader weights inplace = .ok (.ensemble e) ∧
        e.members = loadEnsembleMembers loader weights inplace ∧
        e.names = ((loadEnsembleMembers loader weights inplace).headD dummyModel).names ∧
        e.nc = ((loadEnsembleMembers loader weights inplace).headD dummyModel).nc ∧
        e.yaml = ((loadEnsembleMembers loader weights inplace).headD dummyModel).yaml ∧
        ∃ j, j < (loadEnsembleMembers loader weights inplace).length ∧
          e.stride = (((loadEnsembleMembers loader weights inplace).getD j
            dummyModel).strideAttr).getD [] ∧
          ∀ i, i < (loadEnsembleMembers loader weights inplace).length →
            tensorMax (((loadEnsembleMembers loader weights inplace).getD i
                dummyModel).strideAttr.getD [])
              ≤ tensorMax (((loadEnsembleMembers loader weights inplace).getD j
                dummyModel).strideAttr.getD [])) := by
  have hlen : (loadEnsembleMembers loader weights inplace).length
      = (weightsList weights).length := by
    simp [loadEnsembleMembers]
  obtain ⟨m0, m1, rest, hshape⟩ :
      ∃ m0 m1 rest, loadEnsembleMembers loader weights inplace = m0 :: m1 :: rest := by
    cases hms : loadEnsembleMembers loader weights inplace with
    | nil =>
      rw [hms] at hlen
      simp at hlen
      omega
    | cons a t =>
      cases t with
      | nil =>
        rw [hms] at hlen
        simp at hlen
        omega
      | cons b r => exact ⟨a, b, r, rfl⟩
  have hload : attempt_load loader weights inplace
      = assembleResult (loadEnsembleMembers loader weights inplace) := rfl
  rw [hload, hshape]
  have hA := assembleResult_two m0 m1 rest
  refine ⟨by simpa using hA.1, ?_⟩
  intro hforall
  have hres := hA.2 (by simpa using hforall)
  have hne : ((m0 :: m1 :: rest).map (fun m => tensorMax (m.strideAttr.getD []))) ≠ [] :=
    List.cons_ne_nil _ _
  have hjlt : argmaxIdx ((m0 :: m1 :: rest).map (fun m => tensorMax (m.strideAttr.getD [])))
      < (m0 :: m1 :: rest).length := by
    have h3 := argmaxIdx_lt_length _ hne
    rw [List.length_map] at h3
    exact h3
  refine ⟨_, hres, ?_, ?_, ?_, ?_, ?_⟩
  · rfl
  · simp
  · simp
  · simp
  refine ⟨argmaxIdx ((m0 :: m1 :: rest).map (fun m => tensorMax (m.strideAttr.getD []))),
    ?_, ?_, ?_⟩
  · exact hjlt
  · rfl
  · intro i hi
    have hspec := argmaxIdx_spec
      ((m0 :: m1 :: rest).map (fun m => tensorMax (m.strideAttr.getD []))) i
      (by rw [List.length_map]; exact hi)
    rw [getD_map_lt _ _ _ hi, getD_map_lt _ _ _ hjlt] at hspec
    exact hspec

/-- The C6 witness checkpoints: equal class counts, strides `[8]`/`[16]`. -/
def ckS8 : Ckpt :=
  { ema := none,
    model := { strideAttr := some [8], nc := 80, names := ["person"], yaml := "y",
               submodules := [], pt_path := none } }

/-- Second C6 witness checkpoint. -/
def ckS16 : Ckpt :=
  { ema := none,
    model := { strideAttr := some [16], nc := 80, names := ["person"], yaml := "y",
               submodules := [], pt_path := none } }

/-- The C6 witness loader. -/
def loaderC6 : String → Ckpt := fun w => if w = "a.pt" then ckS8 else ckS16

/-- C6 witness: the theorem applied to two same-`nc` checkpoints. -/
theorem attempt_load_ensemble_spec_witness :
    2 ≤ (weightsList (Weights.list ["a.pt", "b.pt"])).length ∧
    (∀ w ∈ weightsList (Weights.list ["a.pt", "b.pt"]),
      (effModel (loaderC6 w)).strideAttr ≠ some []) ∧
    (attempt_load loaderC6 (.list ["a.pt", "b.pt"]) true = .error .assertionError
      ↔ ¬ ∀ m ∈ loadEnsembleMembers loaderC6 (.list ["a.pt", "b.pt"]) true,
            m.nc = ((loadEnsembleMembers loaderC6 (.list ["a.pt", "b.pt"]) true).headD
              dummyModel).nc) := by
  refine ⟨by decide, by decide, ?_⟩
  exact (attempt_load_ensemble_spec loaderC6 (.list ["a.pt", "b.pt"]) true
    (by decide) (by decide)).1

/-! ## C1: the single-model/ensemble dispatch of `attempt_load` -/

/-- A checkpoint with class count 1 for the C1 counterexample. -/
def ckNc1 : Ckpt :=
  { ema := none,
    model := { strideAttr := some [8], nc := 1, names := ["a"], yaml := "y",
               submodules := [], pt_path := none } }

/-- A checkpoint with class count 2 for the C1 counterexample. -/
def ckNc2 : Ckpt :=
  { ema := none,
    model := { strideAttr := some [16], nc := 2, names := ["b"], yaml := "y",
               submodules := [], pt_path := none } }

/-- The C1 counterexample loader: every checkpoint loads successfully. -/
def loaderDiffNc : String → Ckpt := fun w => if w = "a.pt" then ckNc1 else ckNc2

/-- C1 counterexample: two weights whose checkpoints load successfully,
yet `attempt_load` returns no `Ensemble` — it raises `AssertionError`
because the class counts differ (`nc = 1` vs `nc = 2`). -/
theorem attempt_load_two_weights_no_ensemble :
    (weightsList (Weights.list ["a.pt", "b.pt"])).length = 2 ∧
    attempt_load loaderDiffNc (.list ["a.pt", "b.pt"]) true = .error .assertionError :=
  ⟨rfl, rfl⟩

/-- C1 amended.  When checkpoint loading succeeds: a single weight (a
path or a one-element list) makes `attempt_load` return the loaded model
itself, not an `Ensemble`; two or more weights whose loaded models all
share the same class count make it return an `Ensemble` of those models
whose `forward` on `x` returns the pair (concatenation along dimension 1
of each member's first output on `x`, `None`); with differing class
counts it raises `AssertionError` instead (the counterexample). -/
theorem attempt_load_dispatch (loader : String → Ckpt) (weights : Weights) (inplace : Bool)
    (fwd : YModel → List (List ℚ) → List (List ℚ) × List (List ℚ)) (x : List (List ℚ)) :
    (∀ w, weightsList weights = [w] →
      attempt_load loader weights inplace
        = .ok (.single (compatModel inplace (processCkpt weights (loader w))))) ∧
    (2 ≤ (weightsList weights).length →
      (∀ m ∈ loadEnsembleMembers loader weights inplace,
        m.nc = ((loadEnsembleMembers loader weights inplace).headD dummyModel).nc) →
      ∃ e, attempt_load loader weights inplace = .ok (.ensemble e) ∧
        e.members = loadEnsembleMembers loader weights inplace ∧
        ensembleForward fwd e x
          = (cat1 ((loadEnsembleMembers loader weights inplace).map (fun m => (fwd m x).1)),
             none)) := by
  constructor
  · intro w hw
    have : loadEnsembleMembers loader weights inplace
        = [compatModel inplace (processCkpt weights (loader w))] := by
      rw [loadEnsembleMembers, hw]
      rfl
    rw [show attempt_load loader weights inplace
        = assembleResult (loadEnsembleMembers loader weights inplace) from rfl, this]
    rfl
  · intro h2 hforall
    have hlen : (loadEnsembleMembers loader weights inplace).length
        = (weightsList weights).length := by
      simp [loadEnsembleMembers]
    obtain ⟨m0, m1, rest, hshape⟩ :
        ∃ m0 m1 rest, loadEnsembleMembers loader weights inplace = m0 :: m1 :: rest := by
      cases hms : loadEnsembleMembers loader weights inplace with
      | nil =>
        rw [hms] at hlen
        simp at hlen
        omega
      | cons a t =>
        cases t with
        | nil =>
          rw [hms] at hlen
          simp at hlen
          omega
        | cons b r => exact ⟨a, b, r, rfl⟩
    rw [show attempt_load loader weights inplace
        = assembleResult (loadEnsembleMembers loader weights inplace) from rfl, hshape]
    rw [hshape] at hforall
    have hres := (assembleResult_two m0 m1 rest).2 (by simpa using hforall)
    refine ⟨_, hres, ?_, ?_⟩
    · rfl
    · rfl

/-- The C1 witness loader: both checkpoints share `nc = 80`. -/
def loaderEqNc : String → Ckpt := fun w => if w = "a.pt" then ckS8 else ckS16

/-- The member-forward oracle of the C1 witness. -/
def fwdW1 : YModel → List (List ℚ) → List (List ℚ) × List (List ℚ) := fun _ t => (t, t)

/-- C1 witness: the theorem applied once to a one-element weight list and
once to two same-`nc` weights. -/
theorem attempt_load_dispatch_witness :
    (weightsList (Weights.list ["a.pt"]) = ["a.pt"] ∧
      attempt_load loaderEqNc (.list ["a.pt"]) true
        = .ok (.single (compatModel true
            (processCkpt (.list ["a.pt"]) (loaderEqNc "a.pt"))))) ∧
    (2 ≤ (weightsList (Weights.list ["a.pt", "b.pt"])).length ∧
      ∃ e, attempt_load loaderEqNc (.list ["a.pt", "b.pt"]) true = .ok (.ensemble e) ∧
        e.members = loadEnsembleMembers loaderEqNc (.list ["a.pt", "b.pt"]) true ∧
        ensembleForward fwdW1 e [[1]]
          = (cat1 ((loadEnsembleMembers loaderEqNc (.list ["a.pt", "b.pt"]) true).map
              (fun m => (fwdW1 m [[1]]).1)), none)) := by
  constructor
  · exact ⟨rfl,
      (attempt_load_dispatch loaderEqNc (.list ["a.pt"]) true fwdW1 [[1]]).1 "a.pt" rfl⟩
  · exact ⟨by decide,
      (attempt_load_dispatch loaderEqNc (.list ["a.pt", "b.pt"]) true fwdW1 [[1]]).2
        (by decide) (by decide)⟩

/-! ## C10: `check_class_names` -/

/-- On a nonempty dict, `max(keys)` is `dictMax`. -/
lemma listMaxZ_eq_dictMax (d : List (ℤ × String)) (h : d ≠ []) :
    listMaxZ (d.map Prod.fst) = some (dictMax d) := by
  cases d with
  | nil => exact absurd rfl h
  | cons a t => rfl

/-- A nonempty list of distinct nonnegative integers all below its length
contains `0`. -/
lemma zero_mem_keys (keys : List ℤ) (hne : keys ≠ []) (hnd : keys.Nodup)
    (hpos : ∀ k ∈ keys, 0 ≤ k) (hlt : ∀ k ∈ keys, k < (keys.length : ℤ)) :
    (0 : ℤ) ∈ keys := by
  have hsub : keys.toFinset ⊆ Finset.Ico (0 : ℤ) (keys.length : ℤ) := by
    intro k hk
    rw [List.mem_toFinset] at hk
    rw [Finset.mem_Ico]
    exact ⟨hpos k hk, hlt k hk⟩
  have hcard : keys.toFinset.card = keys.length := List.toFinset_card_of_nodup hnd
  have hico : (Finset.Ico (0 : ℤ) (keys.length : ℤ)).card = keys.length := by
    rw [Int.card_Ico]
    simp
  have heq : keys.toFinset = Finset.Ico (0 : ℤ) (keys.length : ℤ) :=
    Finset.eq_of_subset_of_card_le hsub (by rw [hcard, hico])
  have h0 : (0 : ℤ) ∈ Finset.Ico (0 : ℤ) (keys.length : ℤ) := by
    rw [Finset.mem_Ico]
    refine ⟨le_refl 0, ?_⟩
    have : 0 < keys.length := List.length_pos.mpr hne
    exact_mod_cast this
  rw [← heq] at h0
  exact List.mem_toFinset.mp h0

/-- A dict whose keys are all ints already is passed through the
conversion of lines 23–24 unchanged. -/
lemma convNames_intKeys (d : List (ℤ × String)) :
    convNames (d.map (fun p => (PyKey.intK p.1, p.2))) = .ok d := by
  have hall : (d.map (fun p => (PyKey.intK p.1, p.2))).all (fun p => keyIsInt p.1) = true := by
    rw [List.all_eq_true]
    intro p hp
    obtain ⟨q, _, rfl⟩ := List.mem_map.mp hp
    rfl
  have hback : ((d.map (fun p => (PyKey.intK p.1, p.2))).map
      (fun p => (keyToIntTotal p.1, p.2))) = d := by
    rw [List.map_map]
    have hcomp : ((fun (p : PyKey × String) => (keyToIntTotal p.1, p.2))
        ∘ (fun (p : ℤ × String) => (PyKey.intK p.1, p.2))) = fun p => p :=
      funext (fun p => rfl)
    rw [hcomp, List.map_id']
  simp only [convNames, hall, if_pos, hback]

/-- `check_class_names` on any dict whose key conversion (lines 23–24)
succeeds with a nonempty result `d`: the body proceeds on `d`. -/
lemma check_class_names_dict_conv (dr : List (PyKey × String)) (d : List (ℤ × String))
    (hconv : convNames dr = .ok d) (hne : d ≠ []) :
    check_class_names (.dict dr)
      = (if (d.length : ℤ) ≤ dictMax d then .error .keyError
        else
          match d.find? (fun p => p.1 == 0) with
          | none => .error .keyError
          | some p =>
            if pyStartswith p.2 "n0" then .error (.nameError "yaml_load")
            else .ok d) := by
  simp only [check_class_names, hconv]
  rw [listMaxZ_eq_dictMax _ hne]

/-- `check_class_names` on a nonempty all-int dict, with `max(keys)`
evaluated. -/
lemma check_class_names_intDict_ne (d : List (ℤ × String)) (hne : d ≠ []) :
    check_class_names (.dict (d.map (fun p => (PyKey.intK p.1, p.2))))
      = (if (d.length : ℤ) ≤ dictMax d then .error .keyError
        else
          match d.find? (fun p => p.1 == 0) with
          | none => .error .keyError
          | some p =>
            if pyStartswith p.2 "n0" then .error (.nameError "yaml_load")
            else .ok d) :=
  check_class_names_dict_conv _ d (convNames_intKeys d) hne

/-- The keys of `dict(enumerate(names))` are `0, 1, ..., n-1`. -/
lemma enumNames_keys (l : List String) :
    (enumNames l).map Prod.fst = (List.range l.length).map (fun (i : ℕ) => (i : ℤ)) := by
  unfold enumNames
  rw [List.map_map, ← List.enum_map_fst l, List.map_map]
  rfl

/-- C10 counterexample: the dict `{-1: "person"}` has maximum key `-1`,
strictly below its size `1`, yet `check_class_names` raises `KeyError`
(the `names[0]` access fails), refuting the claimed equivalence. -/
theorem check_class_names_negative_key :
    check_class_names (.dict [(PyKey.intK (-1), "person")]) = .error .keyError ∧
    dictMax [((-1 : ℤ), "person")] < ([((-1 : ℤ), "person")] : List (ℤ × String)).length :=
  ⟨rfl, by decide⟩

/-- C10 amended.  Empty inputs raise `ValueError` (from `max()` on an
empty sequence).  A nonempty list of `n` names (whose first entry is not
an imagenet `n0...` code) yields the dict `{0: names[0], ...,
n-1: names[n-1]}`.  A nonempty dict whose keys convert (via the `int(k)`
step of lines 23–24, covering string keys) to distinct nonnegative
integers: `KeyError` is raised iff the maximum key is at least the number
of entries; below that bound the entry `0` always exists (distinct
nonnegative keys below the size), and the converted dict is returned when
its value is not an `n0...` code.  Negative keys (the counterexample)
fall outside this domain. -/
theorem check_class_names_spec :
    (check_class_names (.list []) = .error .valueError ∧
      check_class_names (.dict []) = .error .valueError) ∧
    (∀ l : List String, l ≠ [] → pyStartswith (l.headD "") "n0" = false →
      check_class_names (.list l) = .ok (enumNames l)) ∧
    (∀ dr : List (PyKey × String), ∀ d : List (ℤ × String),
      convNames dr = .ok d → d ≠ [] → (d.map Prod.fst).Nodup →
      (∀ k ∈ d.map Prod.fst, 0 ≤ k) →
      (((d.length : ℤ) ≤ dictMax d →
        check_class_names (.dict dr) = .error .keyError) ∧
      (dictMax d < (d.length : ℤ) →
        ∃ v0, d.find? (fun p => p.1 == 0) = some (0, v0) ∧
          (pyStartswith v0 "n0" = false →
            check_class_names (.dict dr) = .ok d) ∧
          (pyStartswith v0 "n0" = true →
            check_class_names (.dict dr)
              = .error (.nameError "yaml_load"))))) := by
  refine ⟨⟨rfl, rfl⟩, ?_, ?_⟩
  · intro l hne hstart
    obtain ⟨a, t, rfl⟩ := List.exists_cons_of_ne_nil hne
    have hmapform : (enumNames (a :: t)).map (fun p => (PyKey.intK p.1, p.2))
        = (a :: t).enum.map (fun p => (PyKey.intK (p.1 : ℤ), p.2)) := by
      unfold enumNames
      rw [List.map_map]
      rfl
    have hbridge : check_class_names (.list (a :: t))
        = check_class_names (.dict ((enumNames (a :: t)).map
            (fun p => (PyKey.intK p.1, p.2)))) := by
      simp only [check_class_names]
      rw [hmapform]
    have hne2 : enumNames (a :: t) ≠ [] := by simp [enumNames]
    rw [hbridge, check_class_names_intDict_ne (enumNames (a :: t)) hne2]
    have hlen : (enumNames (a :: t)).length = (a :: t).length := by
      simp [enumNames]
    have hmaxlt : dictMax (enumNames (a :: t)) < ((enumNames (a :: t)).length : ℤ) := by
      have hspec := listMaxZ_spec _ _ (listMaxZ_eq_dictMax _ hne2)
      have hmem := hspec.1
      rw [enumNames_keys] at hmem
      obtain ⟨i, hi, hieq⟩ := List.mem_map.mp hmem
      rw [List.mem_range] at hi
      rw [hlen, ← hieq]
      exact_mod_cast hi
    rw [if_neg (by omega)]
    have hfind : (enumNames (a :: t)).find? (fun p => p.1 == 0) = some (0, a) := by
      have hhead : enumNames (a :: t)
          = ((0 : ℤ), a) :: (List.enumFrom 1 t).map (fun p => ((p.1 : ℤ), p.2)) := by
        unfold enumNames
        rw [List.enum_cons]
        rfl
      rw [hhead]
      exact List.find?_cons_of_pos _ (by rfl)
    rw [hfind]
    have hsa : pyStartswith a "n0" = false := by simpa using hstart
    show (if pyStartswith a "n0" = true
        then (Except.error (PyErr.nameError "yaml_load") : Except PyErr (List (ℤ × String)))
        else Except.ok (enumNames (a :: t))) = Except.ok (enumNames (a :: t))
    rw [hsa]
    simp
  · intro dr d hconv hne hnd hpos
    have hred := check_class_names_dict_conv dr d hconv hne
    constructor
    · intro hge
      rw [hred, if_pos (by omega)]
    · intro hlt
      have hkeysne : d.map Prod.fst ≠ [] := by
        intro hcon
        exact hne (List.map_eq_nil_iff.mp hcon)
      have hbound := listMaxZ_spec _ _ (listMaxZ_eq_dictMax _ hne)
      have hkeylt : ∀ k ∈ d.map Prod.fst, k < ((d.map Prod.fst).length : ℤ) := by
        intro k hk
        have h1 := hbound.2 k hk
        have h2 : ((d.map Prod.fst).length : ℤ) = (d.length : ℤ) := by
          rw [List.length_map]
        omega
      have h0mem : (0 : ℤ) ∈ d.map Prod.fst :=
        zero_mem_keys _ hkeysne hnd hpos hkeylt
      obtain ⟨q, hq, hq0⟩ := List.mem_map.mp h0mem
      have hfindsome : (d.find? (fun p => p.1 == 0)).isSome := by
        rw [List.find?_isSome]
        exact ⟨q, hq, by simp [hq0]⟩
      obtain ⟨res, hres⟩ := Option.isSome_iff_exists.mp hfindsome
      have hres0 : res.1 = 0 := by
        have := List.find?_some hres
        simpa using this
      have hresform : res = ((0 : ℤ), res.2) := by
        rw [← hres0]
      refine ⟨res.2, by rw [← hresform]; exact hres, ?_, ?_⟩
      · intro hv0
        rw [hred, if_neg (by omega), hres]
        show (if pyStartswith res.2 "n0" = true
            then (Except.error (PyErr.nameError "yaml_load") : Except PyErr (List (ℤ × String)))
            else Except.ok d) = Except.ok d
        rw [hv0]
        simp
      · intro hv0
        rw [hred, if_neg (by omega), hres]
        show (if pyStartswith res.2 "n0" = true
            then (Except.error (PyErr.nameError "yaml_load") : Except PyErr (List (ℤ × String)))
            else Except.ok d) = Except.error (PyErr.nameError "yaml_load")
        rw [hv0]
        simp

/-- C10 witness: the amended theorem applied to the two-name list
`["person", "bicycle"]` and to the mixed-key dict
`{'0': "person", 1: "bicycle"}`, whose string key goes through the
`int(k)` conversion of lines 23–24. -/
theorem check_class_names_spec_witness :
    convNames [(PyKey.strK "0", "person"), (PyKey.intK 1, "bicycle")]
      = .ok [((0 : ℤ), "person"), ((1 : ℤ), "bicycle")] ∧
    check_class_names (.list ["person", "bicycle"]) = .ok (enumNames ["person", "bicycle"]) ∧
    ∃ v0, ([((0 : ℤ), "person"), ((1 : ℤ), "bicycle")] : List (ℤ × String)).find?
        (fun p => p.1 == 0) = some (0, v0) ∧
      (pyStartswith v0 "n0" = false →
        check_class_names (.dict [(PyKey.strK "0", "person"), (PyKey.intK 1, "bicycle")])
          = .ok [((0 : ℤ), "person"), ((1 : ℤ), "bicycle")]) := by
  have hconv : convNames [(PyKey.strK "0", "person"), (PyKey.intK 1, "bicycle")]
      = .ok [((0 : ℤ), "person"), ((1 : ℤ), "bicycle")] := rfl
  refine ⟨hconv,
    (check_class_names_spec).2.1 ["person", "bicycle"] (by decide) (by decide), ?_⟩
  obtain ⟨v0, hfind, hok, -⟩ :=
    ((check_class_names_spec).2.2 _ _ hconv (by decide) (by decide) (by decide)).2 (by decide)
  exact ⟨v0, hfind, hok⟩

end Yolo
